import Mathlib

/-!
Verification development for `bench_io_uring.ts`, a Deno file-I/O benchmark
harness.  The script operates on a single scratch directory
(`./bench_deno_tmp`); we embed that directory as a list of entries, the
Deno filesystem calls as explicit state transformers returning `Except`,
and `performance.now()` timing as a clock threaded through a `World`
state.  Each filesystem call consumes one tick of an abstract duration
oracle `dur : Nat → ℚ` (the duration of the n-th I/O operation of the
run), so theorems can speak precisely about which operations fall inside
a timed region.
-/

/-- Errors surfaced by the modelled Deno filesystem API.  `notFound`
models `Deno.errors.NotFound`; `ioError` stands for every other kind of
I/O failure (permission, device error, ...). -/
inductive FsError where
  | notFound
  | ioError
deriving DecidableEq, Repr

/-- File contents.  `Deno.writeFile` stores byte payloads (`Uint8Array`,
modelled as a list of byte values); `Deno.writeTextFile` stores text. -/
inductive FData where
  | bytes : List Nat → FData
  | text : String → FData
deriving DecidableEq, Repr

/-- Length of a file's content, as reported by `Deno.stat().size`
(for text files we count characters; no claim depends on text sizes). -/
def FData.len : FData → Nat
  | .bytes b => b.length
  | .text s => s.length

/-- A directory entry as reported by `Deno.readDir`: its name (relative
to the workspace directory), whether it is a regular file, and its
content.  Entries with `isFile = false` model subdirectories or other
non-file entries; their removal semantics is that of empty directories
(non-empty subdirectories inside the workspace are not modelled — the
script never creates any). -/
structure Entry where
  name : String
  isFile : Bool
  data : FData
deriving DecidableEq, Repr

/-- The workspace directory `./bench_deno_tmp`.  `dir = none` models the
directory not existing; `dir = some l` models it existing with entries
`l` (a real directory has pairwise-distinct entry names, which theorems
assume via `Nodup` hypotheses where it matters).  A script path
`${dir}/x` is keyed here by the name `x`, matching how
`Deno.readDir` reports `entry.name` without the directory prefix. -/
structure Fs where
  dir : Option (List Entry)
deriving DecidableEq, Repr

/-- Look an entry up by name. -/
def findEntry (fs : Fs) (n : String) : Option Entry :=
  match fs.dir with
  | none => none
  | some l => l.find? (fun e => e.name == n)

/-- Write `d` to entry `n` of the listing: overwrite an existing file in
place, fail on a non-file entry (EISDIR), create the file (appended at
the end of the listing) when absent. -/
def writeEntryList (l : List Entry) (n : String) (d : FData) : Except FsError (List Entry) :=
  match l.find? (fun e => e.name == n) with
  | some e =>
    if e.isFile then .ok (l.map (fun x => if x.name == n then ⟨n, true, d⟩ else x))
    else .error .ioError
  | none => .ok (l ++ [⟨n, true, d⟩])

/-- Model of `Deno.writeFile` / `Deno.writeTextFile` on the workspace: fails when
the workspace directory does not exist. -/
def writeFileOp (fs : Fs) (n : String) (d : FData) : Except FsError Fs :=
  match fs.dir with
  | none => .error .notFound
  | some l => (writeEntryList l n d).map (fun l2 => ⟨some l2⟩)

/-- Model of `Deno.readFile`: returns the content of an existing regular file. -/
def readFileOp (fs : Fs) (n : String) : Except FsError FData :=
  match findEntry fs n with
  | none => .error .notFound
  | some e => if e.isFile then .ok e.data else .error .ioError

/-- Model of `Deno.readTextFile`: returns the text of an existing regular file
(byte contents are decoded bytewise). -/
def readTextOp (fs : Fs) (n : String) : Except FsError String :=
  match findEntry fs n with
  | none => .error .notFound
  | some e =>
    if e.isFile then
      match e.data with
      | .text s => .ok s
      | .bytes b => .ok (String.mk (b.map Char.ofNat))
    else .error .ioError

/-- Result of `Deno.stat`. -/
structure StatInfo where
  isFile : Bool
  size : Nat
deriving DecidableEq, Repr

/-- Model of `Deno.stat`: metadata of an existing entry. -/
def statOp (fs : Fs) (n : String) : Except FsError StatInfo :=
  match findEntry fs n with
  | none => .error .notFound
  | some e => .ok ⟨e.isFile, e.data.len⟩

/-- Model of `Deno.remove` on a workspace entry, with fault injection: `faulty n`
makes removal of `n` fail with a genuine I/O error even though the entry
exists.  Otherwise removal deletes the entry when present and fails with
`notFound` when absent. -/
def removeEntry (faulty : String → Bool) (fs : Fs) (n : String) : Except FsError Fs :=
  match fs.dir with
  | none => .error .notFound
  | some l =>
    if faulty n then .error .ioError
    else if l.any (fun e => e.name == n) then .ok ⟨some (l.filter (fun e => !(e.name == n)))⟩
    else .error .notFound

/-- The fault-free removal oracle (a healthy filesystem). -/
def noFault : String → Bool := fun _ => false

/-- Program state threaded through the benchmark functions: the
workspace, the current `performance.now()` clock, the index of the next
I/O operation (used to look its duration up in the oracle), and a log of
`new Uint8Array(...)` payload allocations (recorded by length). -/
@[ext]
structure World where
  fs : Fs
  clock : ℚ
  opIdx : Nat
  allocs : List Nat

/-- Completing one I/O operation: the clock advances by the oracle's
duration for this operation and the operation counter is incremented. -/
def advance (dur : Nat → ℚ) (w : World) : World :=
  { w with clock := w.clock + dur w.opIdx, opIdx := w.opIdx + 1 }

/-- Sum of the durations of operations `start, start+1, ..., start+n-1`. -/
def sumDur (dur : Nat → ℚ) (start n : Nat) : ℚ :=
  ((List.range n).map (fun j => dur (start + j))).sum

/-- A sequential `for` loop of `Deno.writeFile`-style calls, one per
(name, content) pair. -/
def writeSeq (dur : Nat → ℚ) : World → List (String × FData) → Except FsError World
  | w, [] => .ok w
  | w, p :: ps =>
    match writeFileOp w.fs p.1 p.2 with
    | .error e => .error e
    | .ok fs2 => writeSeq dur (advance dur { w with fs := fs2 }) ps

/-- A sequential `for` loop of `Deno.readFile` calls whose results are
discarded (as in the read benchmark). -/
def readSeq (dur : Nat → ℚ) : World → List String → Except FsError World
  | w, [] => .ok w
  | w, n :: ns =>
    match readFileOp w.fs n with
    | .error e => .error e
    | .ok _ => readSeq dur (advance dur w) ns

/-- A sequential batch of `Deno.readTextFile` calls collecting the
contents in order. -/
def readTextSeq (dur : Nat → ℚ) : World → List String → Except FsError (World × List String)
  | w, [] => .ok (w, [])
  | w, n :: ns =>
    match readTextOp w.fs n with
    | .error e => .error e
    | .ok s =>
      match readTextSeq dur (advance dur w) ns with
      | .error e => .error e
      | .ok (w2, ss) => .ok (w2, s :: ss)

/-- A sequential `for` loop of `Deno.stat` calls whose results are
discarded. -/
def statSeq (dur : Nat → ℚ) : World → List String → Except FsError World
  | w, [] => .ok w
  | w, n :: ns =>
    match statOp w.fs n with
    | .error e => .error e
    | .ok _ => statSeq dur (advance dur w) ns

/-- The size buckets of the benchmark matrix (source line 15,
`const SIZES = [...]`): a constant defined once at process start and
never mutated. -/
structure SizeBucket where
  name : String
  size : Nat
deriving DecidableEq, Repr

/-- Source lines 15-23. -/
def SIZES : List SizeBucket :=
  [⟨"1KB", 1024⟩, ⟨"4KB", 4 * 1024⟩, ⟨"16KB", 16 * 1024⟩, ⟨"64KB", 64 * 1024⟩,
   ⟨"256KB", 256 * 1024⟩, ⟨"1MB", 1024 * 1024⟩, ⟨"4MB", 4 * 1024 * 1024⟩]

/-- Source line 25. -/
def ITERATIONS : Nat := 100

/-- Source line 26. -/
def CONCURRENT_OPS : Nat := 10

/-- Source line 60, `const testDir = "./bench_deno_tmp"`. -/
def testDir : String := "./bench_deno_tmp"

/-- Name used by the write benchmark for iteration `i`
(source line 137, path `${dir}/write_${i}.tmp`). -/
def writePath (i : Nat) : String := "write_" ++ toString i ++ ".tmp"

/-- Name used by the read benchmark for iteration `i`
(source lines 148 and 153, path `${dir}/read_${i}.tmp`). -/
def readPath (i : Nat) : String := "read_" ++ toString i ++ ".tmp"

/-- Full path targeted by concurrent chain `i`
(source line 180, `${dir}/concurrent_${i}.tmp`). -/
def concurrentPath (dir : String) (i : Nat) : String :=
  dir ++ "/concurrent_" ++ toString i ++ ".tmp"

/-- Model of `benchWrite` (source lines 132-142): allocate one zero-filled payload
of `size` bytes, sample the clock, write the payload to
`write_0.tmp .. write_<iterations-1>.tmp` sequentially, and report the
elapsed time divided by the iteration count. -/
def benchWrite (dur : Nat → ℚ) (size iterations : Nat) (w : World) : Except FsError (ℚ × World) :=
  let w1 : World := { w with allocs := w.allocs ++ [size] }
  let data : FData := .bytes (List.replicate size 0)
  let start := w1.clock
  match writeSeq dur w1 ((List.range iterations).map (fun i => (writePath i, data))) with
  | .error e => .error e
  | .ok w2 => .ok ((w2.clock - start) / (iterations : ℚ), w2)

/-- Model of `benchRead` (source lines 144-158): setup writes the payload to
`read_0.tmp .. read_<iterations-1>.tmp`, then the clock is sampled and
the same paths are read back sequentially; the elapsed time of the read
loop divided by the iteration count is reported. -/
def benchRead (dur : Nat → ℚ) (size iterations : Nat) (w : World) : Except FsError (ℚ × World) :=
  let w1 : World := { w with allocs := w.allocs ++ [size] }
  let data : FData := .bytes (List.replicate size 0)
  match writeSeq dur w1 ((List.range iterations).map (fun i => (readPath i, data))) with
  | .error e => .error e
  | .ok w2 =>
    let start := w2.clock
    match readSeq dur w2 ((List.range iterations).map readPath) with
    | .error e => .error e
    | .ok w3 => .ok ((w3.clock - start) / (iterations : ℚ), w3)

/-- Model of `benchStat` (source lines 160-171): setup writes the fixed 3-byte
file `stat.tmp`, then the clock is sampled and the file is stat-ed
`iterations` times; elapsed divided by the iteration count is
reported.  Note the function takes no size parameter. -/
def benchStat (dur : Nat → ℚ) (iterations : Nat) (w : World) : Except FsError (ℚ × World) :=
  let w1 : World := { w with allocs := w.allocs ++ [3] }
  match writeSeq dur w1 [("stat.tmp", .bytes [1, 2, 3])] with
  | .error e => .error e
  | .ok w2 =>
    let start := w2.clock
    match statSeq dur w2 (List.replicate iterations "stat.tmp") with
    | .error e => .error e
    | .ok w3 => .ok ((w3.clock - start) / (iterations : ℚ), w3)

/-- The stat step of the per-bucket loop (source line 83): inside
`for (const { name, size } of SIZES)` the call is
`benchStat(ITERATIONS, testDir)` — the bucket is not passed. -/
def statPhase (dur : Nat → ℚ) (b : SizeBucket) (w : World) : Except FsError (ℚ × World) :=
  benchStat dur ITERATIONS w

/-- Content of `config.json` (source line 196,
`JSON.stringify({ app: "deno", version: "1.0" })`). -/
def configContent : String := "\x7b\"app\":\"deno\",\"version\":\"1.0\"\x7d"

/-- Content of `settings.json` (source line 197). -/
def settingsContent : String := "\x7b\"theme\":\"dark\",\"lang\":\"en\"\x7d"

/-- Content of `data.json` (source line 198,
`JSON.stringify({ items: Array(100).fill({ id: 1, value: "test" }) })`). -/
def dataContent : String :=
  "\x7b\"items\":[" ++
    String.intercalate "," (List.replicate 100 "\x7b\"id\":1,\"value\":\"test\"\x7d") ++
    "]\x7d"

/-- Content of `cache.json` (source line 199,
`JSON.stringify({ cache: Array(1000).fill("x".repeat(100)) })`). -/
def cacheContent : String :=
  "\x7b\"cache\":[" ++
    String.intercalate "," (List.replicate 1000 ("\"" ++ String.mk (List.replicate 100 'x') ++ "\"")) ++
    "]\x7d"

/-- The four fixed scenario documents (source lines 195-200). -/
def scenarioFiles : List (String × String) :=
  [("config.json", configContent), ("settings.json", settingsContent),
   ("data.json", dataContent), ("cache.json", cacheContent)]

/-- The `contents.forEach((content) => JSON.parse(content))` step
(source line 217): parse each content in order with no error handler;
the first parse failure propagates. -/
def parseSeq (parse : String → Except String Unit) : List String → Except String Unit
  | [] => .ok ()
  | c :: cs =>
    match parse c with
    | .error e => .error e
    | .ok _ => parseSeq parse cs

/-- Failures of the composite scenario: a filesystem error from one of
its I/O steps, or an uncaught `JSON.parse` failure. -/
inductive ScenErr where
  | fsErr : FsError → ScenErr
  | parseErr : String → ScenErr
deriving DecidableEq, Repr

/-- Model of `benchRealWorldScenario` (source lines 193-226): write the four
documents, read them back, parse every content (uncaught), stat every
document, and report the total elapsed time.  `JSON.parse` is an
external runtime builtin, passed in as the abstract `parse` oracle;
each `Promise.all` batch over the four pairwise-distinct paths is
modelled by its sequential execution, which reaches the same state. -/
def benchScenario (parse : String → Except String Unit) (dur : Nat → ℚ) (w : World) :
    Except ScenErr (ℚ × World) :=
  let start := w.clock
  match writeSeq dur w (scenarioFiles.map (fun p => (p.1, FData.text p.2))) with
  | .error e => .error (.fsErr e)
  | .ok w1 =>
    match readTextSeq dur w1 (scenarioFiles.map Prod.fst) with
    | .error e => .error (.fsErr e)
    | .ok (w2, contents) =>
      match parseSeq parse contents with
      | .error e => .error (.parseErr e)
      | .ok _ =>
        match statSeq dur w2 (scenarioFiles.map Prod.fst) with
        | .error e => .error (.fsErr e)
        | .ok w3 => .ok (w3.clock - start, w3)

/-- JS `String.prototype.endsWith`, used at source line 231. -/
def jsEndsWith (s suffix2 : String) : Bool :=
  suffix2.data.isSuffixOf s.data

/-- The condition of the cleanup loop (source line 231,
`entry.isFile && entry.name.endsWith(".tmp")`). -/
def tmpFileEntry (e : Entry) : Bool :=
  e.isFile && jsEndsWith e.name ".tmp"

/-- The `for await (const entry of Deno.readDir(dir))` removal loop of
`cleanup` (source lines 230-234), iterating over the directory listing
snapshot: removes every file entry ending in `.tmp`; the first removal
error escapes the loop (returned as `some err` with the state reached
so far). -/
def removeTmpSeq (faulty : String → Bool) : Fs → List Entry → Fs × Option FsError
  | fs, [] => (fs, none)
  | fs, e :: es =>
    if tmpFileEntry e then
      match removeEntry faulty fs e.name with
      | .ok fs2 => removeTmpSeq faulty fs2 es
      | .error err => (fs, some err)
    else removeTmpSeq faulty fs es

/-- The fixed scenario filenames cleaned up after the loop
(source line 236). -/
def scenarioNames : List String :=
  ["config.json", "settings.json", "data.json", "cache.json"]

/-- One scenario-file removal with its own `try { ... } catch { /* ignore */ }`
(source lines 237-241): every failure is swallowed. -/
def removeIgnoring (faulty : String → Bool) (fs : Fs) (n : String) : Fs :=
  match removeEntry faulty fs n with
  | .ok fs2 => fs2
  | .error _ => fs

/-- Model of `cleanup` (source lines 228-246): list the directory and remove all
`.tmp` file entries, then best-effort remove the four scenario files;
the outer `catch` swallows a failed listing (directory missing) and any
error escaping the removal loop — in the latter case the scenario-file
removals are never reached. -/
def cleanup (faulty : String → Bool) (fs : Fs) : Fs :=
  match fs.dir with
  | none => fs
  | some entries =>
    match removeTmpSeq faulty fs entries with
    | (fs2, some _) => fs2
    | (fs2, none) => scenarioNames.foldl (removeIgnoring faulty) fs2

/-- JS `kernelVersion.split(".")` (source line 44), on the character
list of the string: splitting on `'.'`, where an empty string yields
one empty part, matching `"".split(".")`. -/
def splitDot : List Char → List (List Char)
  | [] => [[]]
  | c :: cs =>
    if c = '.' then [] :: splitDot cs
    else
      match splitDot cs with
      | g :: gs => (c :: g) :: gs
      | [] => [[c]]

/-- Character-level whitespace test used by the modelled `Number()`
conversion. -/
def isWsChar (c : Char) : Bool := c.isWhitespace

/-- Strip leading and trailing whitespace, as `Number()` does. -/
def jsTrim (cs : List Char) : List Char :=
  ((cs.dropWhile isWsChar).reverse.dropWhile isWsChar).reverse

/-- Value of a non-empty all-digit character list. -/
def digitsVal (cs : List Char) : Option Nat :=
  if cs.isEmpty then none
  else if cs.all (fun c => c.isDigit) then
    some (cs.foldl (fun a c => a * 10 + (c.toNat - 48)) 0)
  else none

/-- Modelled JS `Number()` conversion of one split part (source line 44,
`.map(Number)`), returning `none` for NaN: after trimming whitespace, an
empty part converts to `0`, an optionally signed decimal integer to its
value, and anything else to NaN.  (Exotic numeric forms — hex, binary,
exponent, `Infinity` — cannot occur in a part split on `"."` of a Linux
`osrelease` string and are mapped to NaN here.)  A missing part
(`undefined` after array destructuring) is also `none`: `undefined` and
NaN behave identically in the comparisons the script performs. -/
def jsNumberChars (cs0 : List Char) : Option Int :=
  match jsTrim cs0 with
  | [] => some 0
  | c :: cs =>
    if c = '-' then (digitsVal cs).map (fun n => -(n : Int))
    else if c = '+' then (digitsVal cs).map (fun n => (n : Int))
    else (digitsVal (c :: cs)).map (fun n => (n : Int))

/-- Composition `kernelVersion.split(".").map(Number)` of source line 44. -/
def versionParts (s : String) : List (Option Int) :=
  (splitDot s.data).map jsNumberChars

/-- Value `major` from the destructuring `const [major, minor] = ...`. -/
def majorOf (s : String) : Option Int := (versionParts s).getD 0 none

/-- Value `minor` from the destructuring `const [major, minor] = ...`. -/
def minorOf (s : String) : Option Int := (versionParts s).getD 1 none

/-- JS `>` against a number literal: false when the left side is
NaN/undefined. -/
def optGT (a : Option Int) (b : Int) : Bool :=
  match a with
  | some x => decide (b < x)
  | none => false

/-- JS `>=` against a number literal: false when the left side is
NaN/undefined. -/
def optGE (a : Option Int) (b : Int) : Bool :=
  match a with
  | some x => decide (b ≤ x)
  | none => false

/-- JS `===` against a number literal: false when the left side is
NaN/undefined. -/
def optEqInt (a : Option Int) (b : Int) : Bool :=
  match a with
  | some x => decide (x = b)
  | none => false

/-- The condition of source line 45,
`major > 5 || (major === 5 && minor >= 6)`. -/
def supportsIoUring (s : String) : Bool :=
  optGT (majorOf s) 5 || (optEqInt (majorOf s) 5 && optGE (minorOf s) 6)

/-- What the environment probe prints about the kernel. -/
inductive KernelLabel where
  | supported
  | notSupported
  | unknown
deriving DecidableEq, Repr

/-- The kernel check of the environment probe (source lines 40-53):
`readResult` is the outcome of `Deno.readTextFile("/proc/sys/kernel/osrelease")`
(`none` when it threw, in which case the `catch` prints
`"Kernel: unknown"`).  On a successful read the split/`Number`
conversion and the comparisons cannot throw, and the branch on
`supportsIoUring` picks the supported / not-supported line. -/
def kernelProbe (readResult : Option String) : KernelLabel :=
  match readResult with
  | none => .unknown
  | some s => if supportsIoUring s then .supported else .notSupported


set_option maxRecDepth 10000

theorem sumDur_zero (dur : Nat → ℚ) (k : Nat) : sumDur dur k 0 = 0 := rfl

theorem sumDur_succ (dur : Nat → ℚ) (k n : Nat) :
    sumDur dur k (n + 1) = dur k + sumDur dur (k + 1) n := by
  have h : ((fun j => dur (k + j)) ∘ Nat.succ) = (fun j => dur (k + 1 + j)) := by
    funext j
    simp only [Function.comp_apply]
    congr 1
    omega
  unfold sumDur
  rw [List.range_succ_eq_map]
  simp only [List.map_cons, List.map_map, List.sum_cons, Nat.add_zero]
  rw [h]

theorem sumDur_append (dur : Nat → ℚ) (k m n : Nat) :
    sumDur dur k (m + n) = sumDur dur k m + sumDur dur (k + m) n := by
  induction m generalizing k with
  | zero => simp [sumDur_zero]
  | succ m ih =>
    have h1 : m + 1 + n = (m + n) + 1 := by omega
    rw [h1, sumDur_succ, sumDur_succ, ih (k + 1)]
    have h2 : k + 1 + m = k + (m + 1) := by omega
    rw [h2]
    ring

theorem find?_append_none {α : Type} {p : α → Bool} {l1 : List α} (l2 : List α)
    (h : l1.find? p = none) : (l1 ++ l2).find? p = l2.find? p := by
  rw [List.find?_append, h, Option.none_or]

theorem find?_name_none_of_fresh {l : List Entry} {n : String}
    (h : n ∉ l.map Entry.name) : l.find? (fun e => e.name == n) = none := by
  rw [List.find?_eq_none]
  intro x hx hbeq
  rw [beq_iff_eq] at hbeq
  exact h (hbeq ▸ List.mem_map_of_mem Entry.name hx)

theorem find?_map_entry {α : Type} (f : α → Entry) :
    ∀ (is : List α) (a : α), a ∈ is → (((is.map f).map Entry.name).Nodup) →
      (is.map f).find? (fun e => e.name == (f a).name) = some (f a) := by
  intro is
  induction is with
  | nil => intro a ha _; cases ha
  | cons b is ih =>
    intro a ha hnd
    simp only [List.map_cons, List.nodup_cons] at hnd
    rcases List.mem_cons.mp ha with rfl | ha'
    · exact List.find?_cons_of_pos _ (by simp)
    · have hne : ((f b).name == (f a).name) = false := by
        rw [beq_eq_false_iff_ne]
        intro hEq
        exact hnd.1 (hEq ▸ List.mem_map_of_mem Entry.name (List.mem_map_of_mem f ha'))
      rw [List.map_cons, List.find?_cons_of_neg _ (by simp [hne]), ih a ha' hnd.2]

theorem writeSeq_fresh (dur : Nat → ℚ) (ps : List (String × FData)) :
    ∀ (w : World) (l : List Entry),
      w.fs = ⟨some l⟩ →
      (∀ p ∈ ps, p.1 ∉ l.map Entry.name) →
      (ps.map Prod.fst).Nodup →
      writeSeq dur w ps =
        .ok ⟨⟨some (l ++ ps.map (fun p => ⟨p.1, true, p.2⟩))⟩,
             w.clock + sumDur dur w.opIdx ps.length,
             w.opIdx + ps.length, w.allocs⟩ := by
  induction ps with
  | nil =>
    intro w l hfs _ _
    obtain ⟨fs0, c, k, a⟩ := w
    cases hfs
    simp [writeSeq, sumDur_zero]
  | cons p ps ih =>
    intro w l hfs hfresh hnd
    have hfind : l.find? (fun e => e.name == p.1) = none :=
      find?_name_none_of_fresh (hfresh p (List.mem_cons_self p ps))
    have hop : writeFileOp w.fs p.1 p.2 = .ok ⟨some (l ++ [Entry.mk p.1 true p.2])⟩ := by
      simp [writeFileOp, hfs, writeEntryList, hfind, Except.map]
    simp only [List.map_cons, List.nodup_cons] at hnd
    have hstep := ih (advance dur { w with fs := ⟨some (l ++ [Entry.mk p.1 true p.2])⟩ })
      (l ++ [Entry.mk p.1 true p.2]) rfl
      (by
        intro q hq
        simp only [List.map_append, List.map_cons, List.map_nil, List.mem_append,
          List.mem_singleton]
        rintro (h1 | h2)
        · exact hfresh q (List.mem_cons_of_mem p hq) h1
        · exact hnd.1 (h2 ▸ List.mem_map_of_mem Prod.fst hq))
      hnd.2
    simp only [writeSeq, hop]
    rw [hstep]
    refine congrArg Except.ok (World.ext ?_ ?_ ?_ ?_)
    · simp [advance, List.append_assoc, List.singleton_append]
    · simp only [advance, List.length_cons, sumDur_succ]
      ring
    · simp only [advance, List.length_cons]
      omega
    · rfl

theorem readSeq_found (dur : Nat → ℚ) (ns : List String) :
    ∀ (w : World),
      (∀ n ∈ ns, ∃ e, findEntry w.fs n = some e ∧ e.isFile = true) →
      readSeq dur w ns =
        .ok { w with clock := w.clock + sumDur dur w.opIdx ns.length,
                     opIdx := w.opIdx + ns.length } := by
  induction ns with
  | nil =>
    intro w _
    simp [readSeq, sumDur_zero]
  | cons n ns ih =>
    intro w h
    obtain ⟨e, he, hf⟩ := h n (List.mem_cons_self n ns)
    have hop : readFileOp w.fs n = .ok e.data := by simp [readFileOp, he, hf]
    have hstep := ih (advance dur w) (by intro m hm; exact h m (List.mem_cons_of_mem n hm))
    simp only [readSeq, hop]
    rw [hstep]
    refine congrArg Except.ok (World.ext ?_ ?_ ?_ ?_)
    · rfl
    · simp only [advance, List.length_cons, sumDur_succ]
      ring
    · simp only [advance, List.length_cons]
      omega
    · rfl

theorem statSeq_found (dur : Nat → ℚ) (ns : List String) :
    ∀ (w : World),
      (∀ n ∈ ns, (findEntry w.fs n).isSome = true) →
      statSeq dur w ns =
        .ok { w with clock := w.clock + sumDur dur w.opIdx ns.length,
                     opIdx := w.opIdx + ns.length } := by
  induction ns with
  | nil =>
    intro w _
    simp [statSeq, sumDur_zero]
  | cons n ns ih =>
    intro w h
    obtain ⟨e, he⟩ := Option.isSome_iff_exists.mp (h n (List.mem_cons_self n ns))
    have hop : statOp w.fs n = .ok ⟨e.isFile, e.data.len⟩ := by simp [statOp, he]
    have hstep := ih (advance dur w) (by intro m hm; exact h m (List.mem_cons_of_mem n hm))
    simp only [statSeq, hop]
    rw [hstep]
    refine congrArg Except.ok (World.ext ?_ ?_ ?_ ?_)
    · rfl
    · simp only [advance, List.length_cons, sumDur_succ]
      ring
    · simp only [advance, List.length_cons]
      omega
    · rfl

theorem readTextSeq_spec (dur : Nat → ℚ) (qs : List (String × String)) :
    ∀ (w : World),
      (∀ q ∈ qs, findEntry w.fs q.1 = some ⟨q.1, true, .text q.2⟩) →
      readTextSeq dur w (qs.map Prod.fst) =
        .ok ({ w with clock := w.clock + sumDur dur w.opIdx qs.length,
                      opIdx := w.opIdx + qs.length }, qs.map Prod.snd) := by
  induction qs with
  | nil =>
    intro w _
    simp [readTextSeq, sumDur_zero]
  | cons q qs ih =>
    intro w h
    have he := h q (List.mem_cons_self q qs)
    have hop : readTextOp w.fs q.1 = .ok q.2 := by simp [readTextOp, he]
    have hstep := ih (advance dur w) (by intro r hr; exact h r (List.mem_cons_of_mem q hr))
    simp only [List.map_cons, readTextSeq, hop]
    rw [hstep]
    simp only [Except.ok.injEq, Prod.mk.injEq]
    refine ⟨World.ext ?_ ?_ ?_ ?_, trivial⟩
    · rfl
    · simp only [advance, List.length_cons, sumDur_succ]
      ring
    · simp only [advance, List.length_cons]
      omega
    · rfl

theorem parseSeq_err (parse : String → Except String Unit) :
    ∀ (cs : List String), (∃ c ∈ cs, ∃ e, parse c = .error e) →
      ∃ e, parseSeq parse cs = .error e := by
  intro cs
  induction cs with
  | nil => rintro ⟨c, hc, _⟩; cases hc
  | cons c cs ih =>
    rintro ⟨c0, hc0, e0, herr⟩
    cases hp : parse c with
    | error e => exact ⟨e, by rw [parseSeq, hp]⟩
    | ok u =>
      rcases List.mem_cons.mp hc0 with rfl | hc0'
      · rw [hp] at herr; cases herr
      · obtain ⟨e, hres⟩ := ih ⟨c0, hc0', e0, herr⟩
        refine ⟨e, ?_⟩
        rw [parseSeq, hp]
        cases u
        exact hres

theorem removeTmpSeq_clean (faulty : String → Bool) :
    ∀ (rest l : List Entry), List.Sublist rest l → (l.map Entry.name).Nodup →
      (∀ x ∈ rest, tmpFileEntry x = true → faulty x.name = false) →
      removeTmpSeq faulty ⟨some l⟩ rest =
        (⟨some (l.filter (fun x =>
            !(tmpFileEntry x && rest.any (fun y => y.name == x.name))))⟩, none) := by
  intro rest
  induction rest with
  | nil =>
    intro l _ _ _
    simp [removeTmpSeq]
  | cons e rest ih =>
    intro l hsub hnd hfb
    have hel : e ∈ l := hsub.subset (List.mem_cons_self e rest)
    have hsub' : List.Sublist rest l := (List.sublist_cons_self e rest).trans hsub
    have hndr : ((e :: rest).map Entry.name).Nodup :=
      List.Nodup.sublist (hsub.map Entry.name) hnd
    simp only [List.map_cons, List.nodup_cons] at hndr
    have hfb' : ∀ x ∈ rest, tmpFileEntry x = true → faulty x.name = false :=
      fun x hx => hfb x (List.mem_cons_of_mem e hx)
    cases htmp : tmpFileEntry e with
    | true =>
      have hfe : faulty e.name = false := hfb e (List.mem_cons_self e rest) htmp
      have hany : l.any (fun x => x.name == e.name) = true :=
        List.any_eq_true.mpr ⟨e, hel, by simp⟩
      have hrm : removeEntry faulty ⟨some l⟩ e.name =
          .ok ⟨some (l.filter (fun x => !(x.name == e.name)))⟩ := by
        simp [removeEntry, hfe, hany]
      have hne : ∀ a ∈ rest, (a.name == e.name) = false := by
        intro a ha
        rw [beq_eq_false_iff_ne]
        intro hEq
        exact hndr.1 (hEq ▸ List.mem_map_of_mem Entry.name ha)
      have hsub2 : List.Sublist rest (l.filter (fun x => !(x.name == e.name))) := by
        have hfilt : rest.filter (fun x => !(x.name == e.name)) = rest := by
          rw [List.filter_eq_self]
          intro a ha
          rw [hne a ha]
          rfl
        exact hfilt ▸ List.Sublist.filter _ hsub'
      have hnd2 : ((l.filter (fun x => !(x.name == e.name))).map Entry.name).Nodup :=
        List.Nodup.sublist ((List.filter_sublist l).map Entry.name) hnd
      simp only [removeTmpSeq, htmp, hrm, if_true]
      rw [ih _ hsub2 hnd2 hfb']
      simp only [Prod.mk.injEq, Fs.mk.injEq, Option.some.injEq]
      refine ⟨?_, trivial⟩
      rw [List.filter_filter]
      refine List.filter_congr ?_
      intro a ha
      by_cases h1 : a.name = e.name
      · have hae : a = e := List.inj_on_of_nodup_map hnd ha hel h1
        subst hae
        simp [htmp, List.any_cons]
      · have hbeq : (a.name == e.name) = false := beq_eq_false_iff_ne.mpr h1
        have hbeq2 : (e.name == a.name) = false := beq_eq_false_iff_ne.mpr (Ne.symm h1)
        simp [List.any_cons, hbeq, hbeq2]
    | false =>
      simp only [removeTmpSeq, htmp, Bool.false_eq_true, if_false]
      rw [ih _ hsub' hnd hfb']
      simp only [Prod.mk.injEq, Fs.mk.injEq, Option.some.injEq]
      refine ⟨?_, trivial⟩
      refine List.filter_congr ?_
      intro a ha
      by_cases h1 : a.name = e.name
      · have hae : a = e := List.inj_on_of_nodup_map hnd ha hel h1
        subst hae
        simp [htmp, List.any_cons]
      · have hbeq2 : (e.name == a.name) = false := beq_eq_false_iff_ne.mpr (Ne.symm h1)
        simp [List.any_cons, hbeq2]

theorem removeTmpSeq_append (faulty : String → Bool) (l1 l2 : List Entry) :
    ∀ fs, removeTmpSeq faulty fs (l1 ++ l2) =
      match removeTmpSeq faulty fs l1 with
      | (fs2, none) => removeTmpSeq faulty fs2 l2
      | (fs2, some err) => (fs2, some err) := by
  induction l1 with
  | nil => intro fs; simp [removeTmpSeq]
  | cons e l1 ih =>
    intro fs
    simp only [List.cons_append]
    cases htmp : tmpFileEntry e with
    | true =>
      cases hrm : removeEntry faulty fs e.name with
      | ok fs2 =>
        simp only [removeTmpSeq, htmp, hrm, if_true]
        exact ih fs2
      | error err =>
        simp only [removeTmpSeq, htmp, hrm, if_true]
    | false =>
      simp only [removeTmpSeq, htmp, Bool.false_eq_true, if_false]
      exact ih fs

theorem removeIgnoring_noFault (l : List Entry) (n : String) :
    removeIgnoring noFault ⟨some l⟩ n = ⟨some (l.filter (fun e => !(e.name == n)))⟩ := by
  cases hany : l.any (fun e => e.name == n) with
  | true => simp [removeIgnoring, removeEntry, noFault, hany]
  | false =>
    have hall : ∀ e ∈ l, (e.name == n) = false := by
      intro e he
      have := List.any_eq_false.mp hany e he
      revert this
      cases e.name == n <;> simp
    have hfilt : l.filter (fun e => !(e.name == n)) = l := by
      rw [List.filter_eq_self]
      intro a ha
      rw [hall a ha]
      rfl
    rw [hfilt]
    simp [removeIgnoring, removeEntry, noFault, hany]

theorem scenarioFoldl (ns : List String) :
    ∀ (l : List Entry),
      List.foldl (removeIgnoring noFault) ⟨some l⟩ ns =
        ⟨some (l.filter (fun e => !(ns.any (fun n => e.name == n))))⟩ := by
  induction ns with
  | nil => intro l; simp
  | cons n ns ih =>
    intro l
    rw [List.foldl_cons, removeIgnoring_noFault, ih]
    simp only [Fs.mk.injEq, Option.some.injEq]
    rw [List.filter_filter]
    refine List.filter_congr ?_
    intro a ha
    cases hb : (a.name == n) <;> simp [List.any_cons, hb]

theorem cleanup_clean (l : List Entry) (hnd : (l.map Entry.name).Nodup) :
    cleanup noFault ⟨some l⟩ =
      ⟨some ((l.filter (fun e => !tmpFileEntry e)).filter
          (fun e => !(scenarioNames.any (fun n => e.name == n))))⟩ := by
  have h1 := removeTmpSeq_clean noFault l l (List.Sublist.refl l) hnd (fun x _ _ => rfl)
  have h2 : l.filter (fun x => !(tmpFileEntry x && l.any (fun y => y.name == x.name))) =
      l.filter (fun e => !tmpFileEntry e) := by
    refine List.filter_congr ?_
    intro a ha
    have hx : l.any (fun y => y.name == a.name) = true :=
      List.any_eq_true.mpr ⟨a, ha, by simp⟩
    simp [hx]
  simp only [cleanup, h1]
  rw [scenarioFoldl, h2]

theorem supportsIoUring_iff (s : String) :
    supportsIoUring s = true ↔
      ∃ m, majorOf s = some m ∧ (5 < m ∨ (m = 5 ∧ ∃ n, minorOf s = some n ∧ 6 ≤ n)) := by
  unfold supportsIoUring
  cases hM : majorOf s with
  | none => simp [optGT, optEqInt]
  | some m =>
    cases hN : minorOf s with
    | none => simp [optGT, optEqInt, optGE]
    | some n => simp [optGT, optEqInt, optGE]

/-- C1 (amended): the probe reports "unknown" exactly when reading the
kernel version file fails; on a successfully read string it never
throws, reporting the supported label exactly when the parsed major is
`> 5`, or is `= 5` with a parsed minor `>= 6`, and reporting the
NOT-supported label otherwise — in particular a malformed string whose
major cannot be parsed is labelled not-supported, not "unknown". -/
theorem kernel_probe_labels :
    (∀ r : Option String, kernelProbe r = .unknown ↔ r = none) ∧
    (∀ s : String, kernelProbe (some s) = .supported ↔
      (∃ m, majorOf s = some m ∧ (5 < m ∨ (m = 5 ∧ ∃ n, minorOf s = some n ∧ 6 ≤ n)))) ∧
    (∀ s : String, majorOf s = none → kernelProbe (some s) = .notSupported) := by
  refine ⟨?_, ?_, ?_⟩
  · intro r
    cases r with
    | none => simp [kernelProbe]
    | some s =>
      cases hs : supportsIoUring s <;> simp [kernelProbe, hs]
  · intro s
    rw [← supportsIoUring_iff]
    simp only [kernelProbe]
    cases hs : supportsIoUring s <;> simp [hs]
  · intro s h
    simp [kernelProbe, supportsIoUring, optGT, optEqInt, h]

/-- C1 counterexample: the string "garbage" has unparseable major and
minor, yet the probe labels it not-supported — not "unknown" as the
claim states. -/
theorem kernel_probe_malformed_counterexample :
    majorOf "garbage" = none ∧ minorOf "garbage" = none ∧
    kernelProbe (some "garbage") = .notSupported ∧
    KernelLabel.notSupported ≠ KernelLabel.unknown :=
  ⟨by decide, by decide, by decide, by decide⟩

/-- C1 witness: instantiation of the amended theorem's malformed-string
clause at a concrete unparseable version string. -/
theorem kernel_probe_labels_witness :
    kernelProbe (some "mainline") = KernelLabel.notSupported :=
  kernel_probe_labels.2.2 "mainline" (by decide)

/-- C2 (amended): cleanup deletes every FILE entry whose name ends in
".tmp" (a non-file entry is skipped even when its name ends in ".tmp"),
additionally removes the four scenario filenames when present
(tolerating their absence), and completes without error — returning the
state unchanged — when the directory cannot be listed. -/
theorem cleanup_spec :
    (∀ (l : List Entry), (l.map Entry.name).Nodup →
      cleanup noFault ⟨some l⟩ =
        ⟨some ((l.filter (fun e => !tmpFileEntry e)).filter
            (fun e => !(scenarioNames.any (fun n => e.name == n))))⟩) ∧
    cleanup noFault ⟨none⟩ = ⟨none⟩ :=
  ⟨cleanup_clean, rfl⟩

/-- C2 counterexample: a non-file entry named "sub.tmp" ends in ".tmp"
but survives cleanup, refuting "deletes every entry whose name ends
with the .tmp suffix". -/
theorem cleanup_nonfile_tmp_counterexample :
    jsEndsWith "sub.tmp" ".tmp" = true ∧
    cleanup noFault ⟨some [⟨"sub.tmp", false, .bytes []⟩]⟩ =
      ⟨some [⟨"sub.tmp", false, .bytes []⟩]⟩ :=
  ⟨by decide, by decide⟩

/-- C2 witness: the amended cleanup description instantiated on a
concrete four-entry directory state. -/
theorem cleanup_spec_witness :
    cleanup noFault ⟨some [⟨"a.tmp", true, .bytes []⟩, ⟨"sub.tmp", false, .bytes []⟩,
        ⟨"config.json", true, .text "x"⟩, ⟨"keep.txt", true, .bytes []⟩]⟩ =
      ⟨some (([⟨"a.tmp", true, .bytes []⟩, ⟨"sub.tmp", false, .bytes []⟩,
          ⟨"config.json", true, .text "x"⟩, ⟨"keep.txt", true, .bytes []⟩].filter
            (fun e => !tmpFileEntry e)).filter
          (fun e => !(scenarioNames.any (fun n => e.name == n))))⟩ :=
  cleanup_spec.1 _ (by decide)

/-- C5: the size-bucket sequence is a constant whose byte counts start
at 1024, end at 4194304, are strictly increasing along the sequence,
and contain no duplicates. -/
theorem SIZES_spec :
    (SIZES.map SizeBucket.size).head? = some 1024 ∧
    (SIZES.map SizeBucket.size).getLast? = some 4194304 ∧
    (SIZES.map SizeBucket.size).Pairwise (· < ·) ∧
    (SIZES.map SizeBucket.size).Nodup :=
  ⟨rfl, rfl, by decide, by decide⟩

/-- C6: in a concurrent batch of `CONCURRENT_OPS = 10` chains, distinct
chain indices generate distinct `concurrent_<i>.tmp` paths, so no two
concurrent operations target the same file. -/
theorem concurrentPath_unique (i j : Fin CONCURRENT_OPS) (h : i ≠ j) :
    concurrentPath testDir i.val ≠ concurrentPath testDir j.val := by
  revert i j h
  decide

/-- C6 witness: chains 0 and 1 target different paths. -/
theorem concurrentPath_unique_witness :
    concurrentPath testDir 0 ≠ concurrentPath testDir 1 :=
  concurrentPath_unique ⟨0, by decide⟩ ⟨1, by decide⟩ (by decide)

/-- C8: running cleanup twice on an already-empty workspace directory
produces no error and leaves it empty both times. -/
theorem cleanup_idempotent_empty :
    cleanup noFault (cleanup noFault ⟨some []⟩) = ⟨some []⟩ ∧
    cleanup noFault ⟨some []⟩ = ⟨some []⟩ :=
  ⟨by decide, by decide⟩

/-- C9: every failure inside cleanup is swallowed; in particular a
genuine I/O error while removing a `.tmp` file entry mid-loop is
caught by the blanket catch, cleanup returns normally, the `.tmp`
entries already processed are gone, and both the remaining `.tmp`
entries and the scenario filenames are left untouched. -/
theorem cleanup_swallows_faults (faulty : String → Bool) (pre post : List Entry) (e : Entry)
    (hnd : ((pre ++ e :: post).map Entry.name).Nodup)
    (hpre : ∀ x ∈ pre, faulty x.name = false)
    (hfe : faulty e.name = true) (hte : tmpFileEntry e = true) :
    cleanup faulty ⟨some (pre ++ e :: post)⟩ =
      ⟨some ((pre.filter (fun x => !tmpFileEntry x)) ++ e :: post)⟩ := by
  have hsubpre : List.Sublist pre (pre ++ e :: post) :=
    List.sublist_append_left pre (e :: post)
  have hclean := removeTmpSeq_clean faulty pre (pre ++ e :: post) hsubpre hnd
    (fun x hx _ => hpre x hx)
  have hnd2 := hnd
  rw [List.map_append, List.nodup_append] at hnd2
  obtain ⟨hndpre, hndpost, hdisj⟩ := hnd2
  have hprefalse : ∀ x ∈ e :: post, pre.any (fun y => y.name == x.name) = false := by
    intro x hx
    rw [List.any_eq_false]
    intro y hy hbeq
    rw [beq_iff_eq] at hbeq
    exact hdisj (List.mem_map_of_mem Entry.name hy)
      (hbeq ▸ List.mem_map_of_mem Entry.name hx)
  have hL1 : (pre ++ e :: post).filter
      (fun x => !(tmpFileEntry x && pre.any (fun y => y.name == x.name))) =
      (pre.filter (fun x => !tmpFileEntry x)) ++ e :: post := by
    rw [List.filter_append]
    congr 1
    · refine List.filter_congr ?_
      intro x hx
      have hx2 : pre.any (fun y => y.name == x.name) = true :=
        List.any_eq_true.mpr ⟨x, hx, by simp⟩
      simp [hx2]
    · rw [List.filter_eq_self]
      intro x hx
      rw [hprefalse x hx]
      simp
  have hrm : removeEntry faulty
      ⟨some ((pre.filter (fun x => !tmpFileEntry x)) ++ e :: post)⟩ e.name =
      .error .ioError := by
    simp [removeEntry, hfe]
  simp only [cleanup]
  rw [removeTmpSeq_append, hclean, hL1]
  simp only [removeTmpSeq, hte, hrm, if_true]

/-- C9 witness: with entries a.tmp, b.tmp, c.tmp, config.json and an
I/O fault injected on b.tmp, cleanup returns normally having removed
only a.tmp. -/
theorem cleanup_swallows_faults_witness :
    cleanup (fun n => n == "b.tmp")
      ⟨some ([⟨"a.tmp", true, .bytes []⟩] ++ ⟨"b.tmp", true, .bytes []⟩ ::
        [⟨"c.tmp", true, .bytes []⟩, ⟨"config.json", true, .text "x"⟩])⟩ =
      ⟨some (([⟨"a.tmp", true, .bytes []⟩].filter (fun x => !tmpFileEntry x)) ++
        ⟨"b.tmp", true, .bytes []⟩ ::
          [⟨"c.tmp", true, .bytes []⟩, ⟨"config.json", true, .text "x"⟩])⟩ :=
  cleanup_swallows_faults (fun n => n == "b.tmp") _ _ _
    (by decide) (by decide) (by decide) (by decide)

/-- C3: with an empty workspace, the write benchmark allocates the
zero-filled payload of `size` bytes exactly once, writes it to the 100
pairwise-distinct paths `write_0.tmp`..`write_99.tmp` (each created
file's content has length `size`), returns the elapsed time of the 100
writes divided by 100, and the subsequent cleanup removes all 100
files. -/
theorem benchWrite_spec (dur : Nat → ℚ) (size : Nat) (c : ℚ) (k : Nat) (a : List Nat) :
    ITERATIONS = 100 ∧
    benchWrite dur size ITERATIONS ⟨⟨some []⟩, c, k, a⟩ =
      .ok (sumDur dur k 100 / 100,
        ⟨⟨some ((List.range 100).map
            (fun i => ⟨writePath i, true, .bytes (List.replicate size 0)⟩))⟩,
         c + sumDur dur k 100, k + 100, a ++ [size]⟩) ∧
    ((List.range 100).map writePath).Nodup ∧
    (∀ e ∈ (List.range 100).map
        (fun i => Entry.mk (writePath i) true (.bytes (List.replicate size 0))),
      e.data.len = size) ∧
    cleanup noFault ⟨some ((List.range 100).map
        (fun i => ⟨writePath i, true, .bytes (List.replicate size 0)⟩))⟩ = ⟨some []⟩ := by
  have hnodup : ((List.range 100).map writePath).Nodup := by decide
  have hends : ∀ i ∈ List.range 100, jsEndsWith (writePath i) ".tmp" = true := by decide
  have hfst : ((List.range 100).map
      (fun i => (writePath i, FData.bytes (List.replicate size 0)))).map Prod.fst =
      (List.range 100).map writePath := by
    rw [List.map_map]; rfl
  have hmap : ((List.range 100).map
      (fun i => (writePath i, FData.bytes (List.replicate size 0)))).map
      (fun p => Entry.mk p.1 true p.2) =
      (List.range 100).map
        (fun i => Entry.mk (writePath i) true (.bytes (List.replicate size 0))) := by
    rw [List.map_map]; rfl
  have hw := writeSeq_fresh dur
    ((List.range 100).map (fun i => (writePath i, FData.bytes (List.replicate size 0))))
    ⟨⟨some []⟩, c, k, a ++ [size]⟩ [] rfl (by simp) (by rw [hfst]; exact hnodup)
  have hw' : writeSeq dur ⟨⟨some []⟩, c, k, a ++ [size]⟩
      ((List.range 100).map (fun i => (writePath i, FData.bytes (List.replicate size 0)))) =
      .ok ⟨⟨some ((List.range 100).map
          (fun i => Entry.mk (writePath i) true (.bytes (List.replicate size 0))))⟩,
        c + sumDur dur k 100, k + 100, a ++ [size]⟩ := by
    rw [hw]
    simp [List.length_map, List.length_range, hmap]
  refine ⟨rfl, ?_, hnodup, ?_, ?_⟩
  · simp only [benchWrite, ITERATIONS, hw']
    norm_num [add_sub_cancel_left]
  · intro e he
    obtain ⟨i, hi, rfl⟩ := List.mem_map.mp he
    simp [FData.len]
  · have hnd2 : (((List.range 100).map
        (fun i => Entry.mk (writePath i) true (.bytes (List.replicate size 0)))).map
        Entry.name).Nodup := by
      rw [List.map_map]; exact hnodup
    rw [cleanup_clean _ hnd2]
    have h1 : ((List.range 100).map
        (fun i => Entry.mk (writePath i) true (.bytes (List.replicate size 0)))).filter
        (fun e => !tmpFileEntry e) = [] := by
      rw [List.filter_eq_nil_iff]
      intro e he
      obtain ⟨i, hi, rfl⟩ := List.mem_map.mp he
      simp [tmpFileEntry, hends i hi]
    rw [h1]
    rfl

/-- C4: the read benchmark completes all 100 setup writes (I/O
operations k..k+99) before the clock is sampled, then reads the 100
files back inside the timed region (operations k+100..k+199), and
returns exactly the elapsed time of the read loop divided by 100 — the
setup writes contribute nothing to the reported value. -/
theorem benchRead_spec (dur : Nat → ℚ) (size : Nat) (c : ℚ) (k : Nat) (a : List Nat)
    (l : List Entry)
    (hfresh : ∀ i ∈ List.range 100, readPath i ∉ l.map Entry.name) :
    benchRead dur size ITERATIONS ⟨⟨some l⟩, c, k, a⟩ =
      .ok (sumDur dur (k + 100) 100 / 100,
        ⟨⟨some (l ++ (List.range 100).map
            (fun i => ⟨readPath i, true, .bytes (List.replicate size 0)⟩))⟩,
         c + sumDur dur k 200, k + 200, a ++ [size]⟩) := by
  have hnodup : ((List.range 100).map readPath).Nodup := by decide
  have hfst : ((List.range 100).map
      (fun i => (readPath i, FData.bytes (List.replicate size 0)))).map Prod.fst =
      (List.range 100).map readPath := by
    rw [List.map_map]; rfl
  have hmap : ((List.range 100).map
      (fun i => (readPath i, FData.bytes (List.replicate size 0)))).map
      (fun p => Entry.mk p.1 true p.2) =
      (List.range 100).map
        (fun i => Entry.mk (readPath i) true (.bytes (List.replicate size 0))) := by
    rw [List.map_map]; rfl
  have hfresh' : ∀ p ∈ (List.range 100).map
      (fun i => (readPath i, FData.bytes (List.replicate size 0))),
      p.1 ∉ l.map Entry.name := by
    intro p hp
    obtain ⟨i, hi, rfl⟩ := List.mem_map.mp hp
    exact hfresh i hi
  have hw := writeSeq_fresh dur
    ((List.range 100).map (fun i => (readPath i, FData.bytes (List.replicate size 0))))
    ⟨⟨some l⟩, c, k, a ++ [size]⟩ l rfl hfresh' (by rw [hfst]; exact hnodup)
  have hw' : writeSeq dur ⟨⟨some l⟩, c, k, a ++ [size]⟩
      ((List.range 100).map (fun i => (readPath i, FData.bytes (List.replicate size 0)))) =
      .ok ⟨⟨some (l ++ (List.range 100).map
          (fun i => Entry.mk (readPath i) true (.bytes (List.replicate size 0))))⟩,
        c + sumDur dur k 100, k + 100, a ++ [size]⟩ := by
    rw [hw]
    simp [List.length_map, List.length_range, hmap]
  have hfind : ∀ n ∈ (List.range 100).map readPath,
      ∃ e2, findEntry ⟨some (l ++ (List.range 100).map
        (fun i => Entry.mk (readPath i) true (.bytes (List.replicate size 0))))⟩ n =
          some e2 ∧ e2.isFile = true := by
    intro n hn
    obtain ⟨i, hi, rfl⟩ := List.mem_map.mp hn
    have h0 : l.find? (fun e => e.name == readPath i) = none :=
      find?_name_none_of_fresh (hfresh i hi)
    have hnames : (((List.range 100).map
        (fun i => Entry.mk (readPath i) true (.bytes (List.replicate size 0)))).map
        Entry.name).Nodup := by
      rw [List.map_map]; exact hnodup
    have hf := find?_map_entry
      (fun i => Entry.mk (readPath i) true (FData.bytes (List.replicate size 0)))
      (List.range 100) i hi hnames
    refine ⟨Entry.mk (readPath i) true (FData.bytes (List.replicate size 0)), ?_, rfl⟩
    simp only [findEntry]
    rw [find?_append_none _ h0]
    exact hf
  have hr := readSeq_found dur ((List.range 100).map readPath)
    ⟨⟨some (l ++ (List.range 100).map
      (fun i => Entry.mk (readPath i) true (.bytes (List.replicate size 0))))⟩,
     c + sumDur dur k 100, k + 100, a ++ [size]⟩ hfind
  have hr' : readSeq dur
      ⟨⟨some (l ++ (List.range 100).map
        (fun i => Entry.mk (readPath i) true (.bytes (List.replicate size 0))))⟩,
       c + sumDur dur k 100, k + 100, a ++ [size]⟩
      ((List.range 100).map readPath) =
      .ok ⟨⟨some (l ++ (List.range 100).map
        (fun i => Entry.mk (readPath i) true (.bytes (List.replicate size 0))))⟩,
       c + sumDur dur k 100 + sumDur dur (k + 100) 100, k + 100 + 100, a ++ [size]⟩ := by
    rw [hr]
    simp [List.length_map, List.length_range]
  have hsum : sumDur dur k 200 = sumDur dur k 100 + sumDur dur (k + 100) 100 := by
    have h := sumDur_append dur k 100 100
    norm_num at h
    exact h
  simp only [benchRead, ITERATIONS, hw', hr']
  rw [hsum]
  simp only [Except.ok.injEq, Prod.mk.injEq]
  constructor
  · dsimp only
    push_cast
    ring
  · apply World.ext
    · rfl
    · dsimp only
      try ring
    · dsimp only
      try omega
    · rfl

/-- C4 witness: the read-benchmark theorem instantiated on the empty
workspace with size-1 payloads and the zero duration oracle. -/
theorem benchRead_spec_witness :
    benchRead (fun _ => 0) 1 ITERATIONS ⟨⟨some []⟩, 0, 0, []⟩ =
      .ok (sumDur (fun _ => 0) (0 + 100) 100 / 100,
        ⟨⟨some (([] : List Entry) ++ (List.range 100).map
            (fun i => ⟨readPath i, true, .bytes (List.replicate 1 0)⟩))⟩,
         0 + sumDur (fun _ => 0) 0 200, 0 + 200, ([] : List Nat) ++ [1]⟩) :=
  benchRead_spec (fun _ => 0) 1 0 0 [] [] (by simp)

/-- C10: the per-bucket stat phase is literally the same function for
every size bucket (the call site passes only ITERATIONS), and the stat
benchmark always writes the same fixed 3-byte file stat.tmp and then
reports the mean of its 100 stat-query durations — nothing in it
depends on a bucket's byte count. -/
theorem benchStat_bucket_independent :
    (∀ (dur : Nat → ℚ) (b1 b2 : SizeBucket), statPhase dur b1 = statPhase dur b2) ∧
    (∀ (dur : Nat → ℚ) (c : ℚ) (k : Nat) (a : List Nat) (l : List Entry),
      "stat.tmp" ∉ l.map Entry.name →
      benchStat dur ITERATIONS ⟨⟨some l⟩, c, k, a⟩ =
        .ok (sumDur dur (k + 1) 100 / 100,
          ⟨⟨some (l ++ [⟨"stat.tmp", true, .bytes [1, 2, 3]⟩])⟩,
           c + sumDur dur k 101, k + 101, a ++ [3]⟩)) := by
  constructor
  · intro dur b1 b2
    rfl
  · intro dur c k a l hfresh
    have hw := writeSeq_fresh dur [("stat.tmp", FData.bytes [1, 2, 3])]
      ⟨⟨some l⟩, c, k, a ++ [3]⟩ l rfl
      (by
        intro p hp
        rw [List.mem_singleton] at hp
        subst hp
        exact hfresh)
      (by simp)
    have hw' : writeSeq dur ⟨⟨some l⟩, c, k, a ++ [3]⟩ [("stat.tmp", FData.bytes [1, 2, 3])] =
        .ok ⟨⟨some (l ++ [Entry.mk "stat.tmp" true (.bytes [1, 2, 3])])⟩,
          c + sumDur dur k 1, k + 1, a ++ [3]⟩ := by
      rw [hw]
      simp
    have hfind : ∀ n ∈ List.replicate 100 "stat.tmp",
        (findEntry ⟨some (l ++ [Entry.mk "stat.tmp" true (.bytes [1, 2, 3])])⟩ n).isSome
          = true := by
      intro n hn
      rw [List.mem_replicate] at hn
      obtain ⟨-, rfl⟩ := hn
      have h0 : l.find? (fun e => e.name == "stat.tmp") = none :=
        find?_name_none_of_fresh hfresh
      simp only [findEntry]
      rw [find?_append_none _ h0]
      simp
    have hst := statSeq_found dur (List.replicate 100 "stat.tmp")
      ⟨⟨some (l ++ [Entry.mk "stat.tmp" true (.bytes [1, 2, 3])])⟩,
       c + sumDur dur k 1, k + 1, a ++ [3]⟩ hfind
    have hst' : statSeq dur
        ⟨⟨some (l ++ [Entry.mk "stat.tmp" true (.bytes [1, 2, 3])])⟩,
         c + sumDur dur k 1, k + 1, a ++ [3]⟩ (List.replicate 100 "stat.tmp") =
        .ok ⟨⟨some (l ++ [Entry.mk "stat.tmp" true (.bytes [1, 2, 3])])⟩,
         c + sumDur dur k 1 + sumDur dur (k + 1) 100, k + 1 + 100, a ++ [3]⟩ := by
      rw [hst]
      simp
    have hsum : sumDur dur k 101 = sumDur dur k 1 + sumDur dur (k + 1) 100 := by
      have h := sumDur_append dur k 1 100
      norm_num at h
      exact h
    simp only [benchStat, ITERATIONS, hw', hst']
    rw [hsum]
    simp only [Except.ok.injEq, Prod.mk.injEq]
    constructor
    · dsimp only
      push_cast
      ring
    · apply World.ext
      · rfl
      · dsimp only
        try ring
      · dsimp only
        try omega
      · rfl

/-- C10 witness: the stat benchmark run from the empty workspace with
the zero duration oracle, via the theorem's second clause. -/
theorem benchStat_bucket_independent_witness :
    benchStat (fun _ => 0) ITERATIONS ⟨⟨some []⟩, 0, 0, []⟩ =
      .ok (sumDur (fun _ => 0) (0 + 1) 100 / 100,
        ⟨⟨some (([] : List Entry) ++ [⟨"stat.tmp", true, .bytes [1, 2, 3]⟩])⟩,
         0 + sumDur (fun _ => 0) 0 101, 0 + 101, ([] : List Nat) ++ [3]⟩) :=
  benchStat_bucket_independent.2 (fun _ => 0) 0 0 [] [] (by simp)

/-- C7: in the composite scenario the four documents are written and
read back, and then every content is parsed with no error handler: if
the parse oracle fails on any of the four fixture contents, the whole
benchmark returns that parse failure uncaught (as a `parseErr`), and
the stat step never runs. -/
theorem benchScenario_parse_fault (parse : String → Except String Unit) (dur : Nat → ℚ)
    (c : ℚ) (k : Nat) (a : List Nat) (l : List Entry)
    (hfresh : ∀ p ∈ scenarioFiles, p.1 ∉ l.map Entry.name)
    (hbad : ∃ s ∈ scenarioFiles.map Prod.snd, ∃ e, parse s = .error e) :
    ∃ e, benchScenario parse dur ⟨⟨some l⟩, c, k, a⟩ = .error (ScenErr.parseErr e) := by
  have hfst : (scenarioFiles.map (fun p => (p.1, FData.text p.2))).map Prod.fst =
      scenarioFiles.map Prod.fst := by
    rw [List.map_map]; rfl
  have hnodup : (scenarioFiles.map Prod.fst).Nodup := by decide
  have hfresh' : ∀ p ∈ scenarioFiles.map (fun p => (p.1, FData.text p.2)),
      p.1 ∉ l.map Entry.name := by
    intro p hp
    obtain ⟨q, hq, rfl⟩ := List.mem_map.mp hp
    exact hfresh q hq
  have hw := writeSeq_fresh dur (scenarioFiles.map (fun p => (p.1, FData.text p.2)))
    ⟨⟨some l⟩, c, k, a⟩ l rfl hfresh' (by rw [hfst]; exact hnodup)
  have hmap : (scenarioFiles.map (fun p => (p.1, FData.text p.2))).map
      (fun p => Entry.mk p.1 true p.2) =
      scenarioFiles.map (fun q => Entry.mk q.1 true (FData.text q.2)) := by
    rw [List.map_map]; rfl
  have hlen : scenarioFiles.length = 4 := rfl
  have hw' : writeSeq dur ⟨⟨some l⟩, c, k, a⟩
      (scenarioFiles.map (fun p => (p.1, FData.text p.2))) =
      .ok ⟨⟨some (l ++ scenarioFiles.map (fun q => Entry.mk q.1 true (FData.text q.2)))⟩,
        c + sumDur dur k 4, k + 4, a⟩ := by
    rw [hw, hmap]
    simp [hlen]
  have hnames : ((scenarioFiles.map (fun q => Entry.mk q.1 true (FData.text q.2))).map
      Entry.name).Nodup := by
    rw [List.map_map]
    exact hnodup
  have hfind : ∀ q ∈ scenarioFiles,
      findEntry ⟨some (l ++ scenarioFiles.map (fun q => Entry.mk q.1 true (FData.text q.2)))⟩
        q.1 = some ⟨q.1, true, .text q.2⟩ := by
    intro q hq
    have h0 : l.find? (fun e => e.name == q.1) = none :=
      find?_name_none_of_fresh (hfresh q hq)
    have hf := find?_map_entry (fun q => Entry.mk q.1 true (FData.text q.2))
      scenarioFiles q hq hnames
    simp only [findEntry]
    rw [find?_append_none _ h0]
    exact hf
  have hr := readTextSeq_spec dur scenarioFiles
    ⟨⟨some (l ++ scenarioFiles.map (fun q => Entry.mk q.1 true (FData.text q.2)))⟩,
     c + sumDur dur k 4, k + 4, a⟩ hfind
  obtain ⟨e0, hp⟩ := parseSeq_err parse (scenarioFiles.map Prod.snd) hbad
  refine ⟨e0, ?_⟩
  simp only [benchScenario, hw', hr, hp]

/-- C7 witness: an always-failing parse oracle aborts the scenario run
from the empty workspace with a parse error. -/
theorem benchScenario_parse_fault_witness :
    ∃ e, benchScenario (fun _ => .error "bad") (fun _ => 0) ⟨⟨some []⟩, 0, 0, []⟩ =
      .error (ScenErr.parseErr e) :=
  benchScenario_parse_fault (fun _ => .error "bad") (fun _ => 0) 0 0 [] []
    (by simp)
    ⟨configContent, by simp [scenarioFiles], "bad", rfl⟩
